import Mathlib

/-!
Verification development for the `MenuRecommender` class of
`src/models/recommender.py` (item-association recommendation engine).

The Python class keeps two tables built by `train` from a list of
transactions (each a list of integer menu-item ids):
  * `item_cooccurrence : defaultdict(lambda: defaultdict(int))`
  * `item_popularity : dict` (item id -> occurrence count / total transactions)
plus an `is_fitted` flag and an unused `item_features` slot.

Python dicts preserve insertion order; we embed them as association lists
`List (Int × _)` where updating an existing key keeps its position and a
fresh key is appended at the end, exactly mirroring CPython semantics.
Python floats are embedded as exact rationals `ℚ` and Python's `round(x, n)`
(round half to even on the scaled value) as `pyRound3` / `pyRound4`.
Exceptions are embedded as an `Except PyError` result; methods that can touch
the auto-vivifying `defaultdict` additionally return the (possibly extended)
model state, so that read-only-ness is a theorem rather than a modelling
assumption.
-/

namespace MenuRec

/-- The errors the Python methods can raise on the paths we model:
`ValueError("Model must be trained ...")` (the spec's `ModelNotFittedError`)
and `ZeroDivisionError`. -/
inductive PyError where
  | modelNotFitted : PyError
  | zeroDivision : PyError
deriving DecidableEq, Repr

/-- Inner table of a `defaultdict(int)` / the `item_counts` dict: an
insertion-ordered association list from item id to count. -/
abbrev NatTable := List (Int × Nat)

/-- The nested `item_cooccurrence` table. -/
abbrev CoocTable := List (Int × NatTable)

/-- Python's `d[k] += 1` on a `defaultdict(int)` embedded as an association list:
an existing key is updated in place, a missing key is appended with value
`0 + 1 = 1`. -/
def bumpInner : NatTable → Int → NatTable
  | [], k => [(k, 1)]
  | p :: rest, k => if p.1 = k then (p.1, p.2 + 1) :: rest else p :: bumpInner rest k

/-- Integer-dict lookup with default `0` (what reading a `defaultdict(int)`
entry, or `.get(k, 0)`, yields for the value). -/
def lookupNat : NatTable → Int → Nat
  | [], _ => 0
  | p :: rest, k => if p.1 = k then p.2 else lookupNat rest k

/-- The increment `self.item_cooccurrence[k1][k2] += 1`: auto-vivifies the outer key `k1`
(appending it with a fresh inner dict) and bumps `k2` in its inner dict. -/
def bumpOuter : CoocTable → Int → Int → CoocTable
  | [], k1, k2 => [(k1, bumpInner [] k2)]
  | p :: rest, k1, k2 =>
      if p.1 = k1 then (p.1, bumpInner p.2 k2) :: rest else p :: bumpOuter rest k1 k2

/-- The inner dict stored under key `k`, or the empty dict if `k` is absent
(only used after a membership test in the source, so the default never
shows up in reachable behaviour). -/
def lookupInner : CoocTable → Int → NatTable
  | [], _ => []
  | p :: rest, k => if p.1 = k then p.2 else lookupInner rest k

/-- The co-occurrence count recorded for the ordered pair `(a, b)`. -/
def coocCount (c : CoocTable) (a b : Int) : Nat :=
  lookupNat (lookupInner c a) b

/-- The read `self.item_cooccurrence[k]` on the `defaultdict`: if `k` is present the
table is unchanged and its inner dict is returned; if absent, the access
auto-vivifies `k` with an empty inner dict.  Returned as (new table, inner
dict) so mutation-freedom can be proved rather than assumed. -/
def dictGetDefault (c : CoocTable) (k : Int) : CoocTable × NatTable :=
  match c.find? (fun p => p.1 = k) with
  | some p => (c, p.2)
  | none => (c ++ [(k, [])], [])

/-- Python's `itertools.combinations(t, 2)`: every 2-combination of positions of `t`,
in the source order `(t0,t1), (t0,t2), ..., (t1,t2), ...`. -/
def combinations2 : List Int → List (Int × Int)
  | [] => []
  | x :: xs => (xs.map fun y => (x, y)) ++ combinations2 xs

/-- The `for item in transaction: item_counts[item] += 1` loop. -/
def countItems (counts : NatTable) (t : List Int) : NatTable :=
  t.foldl bumpInner counts

/-- The `for item1, item2 in combinations(transaction, 2)` loop: each
positional pair increments both `(item1, item2)` and `(item2, item1)`. -/
def coocPairs (cooc : CoocTable) (t : List Int) : CoocTable :=
  (combinations2 t).foldl (fun c p => bumpOuter (bumpOuter c p.1 p.2) p.2 p.1) cooc

/-- One iteration of the `for transaction in transactions` loop: first the
item-count pass, then the co-occurrence pass (the two accumulators are
independent dicts). -/
def trainStep (acc : NatTable × CoocTable) (t : List Int) : NatTable × CoocTable :=
  (countItems acc.1 t, coocPairs acc.2 t)

/-- The engine state: the two tables, the unused `item_features` slot and the
`is_fitted` flag.  `__init__` sets the tables to `None`; since every access
happens behind the `is_fitted` check we embed the unfitted tables as empty. -/
structure Model where
  itemCooccurrence : CoocTable
  itemPopularity : List (Int × ℚ)
  itemFeatures : Option Unit
  isFitted : Bool
deriving DecidableEq, Repr

/-- The state `MenuRecommender.__init__` produces. -/
def initialModel : Model :=
  { itemCooccurrence := [], itemPopularity := [], itemFeatures := none, isFitted := false }

/-- The dict `train` returns on success. -/
structure TrainSummary where
  numTransactions : Nat
  numItems : Nat
  avgItemsPerTransaction : ℚ
deriving DecidableEq, Repr

/-- The method `train(transactions)`.  The two tables are rebuilt from scratch from the
transaction list alone, `is_fitted` is set, and only then is the summary dict
computed; with zero transactions the `avg_items_per_transaction` division
raises `ZeroDivisionError` *after* the tables and the flag were already
assigned, which the returned (state, result) pair records.  (The per-item
division inside the popularity comprehension cannot divide by zero: with zero
transactions the comprehension is empty.) -/
def train (m : Model) (transactions : List (List Int)) :
    Model × Except PyError TrainSummary :=
  let tables := transactions.foldl trainStep ([], [])
  let total := transactions.length
  let popularity := tables.1.map fun p => (p.1, (p.2 : ℚ) / (total : ℚ))
  let m1 : Model :=
    { itemCooccurrence := tables.2, itemPopularity := popularity,
      itemFeatures := m.itemFeatures, isFitted := true }
  if total = 0 then
    (m1, .error .zeroDivision)
  else
    (m1, .ok { numTransactions := total, numItems := popularity.length,
               avgItemsPerTransaction :=
                 ((transactions.map List.length).sum : ℚ) / (total : ℚ) })

/-- The read `self.item_popularity.get(item_id, 0)`. -/
def getPop (pop : List (Int × ℚ)) (k : Int) : ℚ :=
  match pop.find? (fun p => p.1 = k) with
  | some p => p.2
  | none => 0

/-- Round a rational to the nearest integer, halves to the even neighbour
(the rounding Python's `round` applies to the scaled value). -/
def roundHalfEven (q : ℚ) : ℤ :=
  let f := Rat.floor q
  let r := q - (f : ℚ)
  if r < 1 / 2 then f
  else if 1 / 2 < r then f + 1
  else if f % 2 = 0 then f else f + 1

/-- Python's `round(x, 3)` on our exact-rational embedding of floats. -/
def pyRound3 (q : ℚ) : ℚ := ((roundHalfEven (q * 1000) : ℚ)) / 1000

/-- Python's `round(x, 4)` on our exact-rational embedding of floats. -/
def pyRound4 (q : ℚ) : ℚ := ((roundHalfEven (q * 10000) : ℚ)) / 10000

/-- Insert `x` into an already descending (by `key`) list, after every
element of greater-or-equal key: the insertion step of a stable descending
sort, matching `sorted(..., key=..., reverse=True)` on CPython (Timsort is
stable and `reverse=True` keeps equal-key elements in encounter order). -/
def insertDesc {α β : Type} [LinearOrder β] (key : α → β) (x : α) :
    List α → List α
  | [] => [x]
  | y :: ys => if key x ≤ key y then y :: insertDesc key x ys else x :: y :: ys

/-- Stable sort into non-increasing `key` order (insertion sort). -/
def sortDesc {α β : Type} [LinearOrder β] (key : α → β) (l : List α) : List α :=
  l.foldl (fun acc x => insertDesc key x acc) []

/-- One entry of the list `recommend_related_items` returns. -/
structure Recommendation where
  menuItemId : Int
  cooccurrenceCount : Nat
  popularityScore : ℚ
  recommendationScore : ℚ
deriving DecidableEq, Repr

/-- The body of `recommend_related_items` after the `is_fitted` check:
membership test on the outer dict (absent ⇒ empty result), read of the
(auto-vivifying) inner dict, `min_support` filter, stable sort by raw
co-occurrence count descending, truncation to `top_k`, and only then the
composite score `count + popularity * 100` for the retained entries. -/
def relatedCore (cooc : CoocTable) (pop : List (Int × ℚ)) (menuItemId : Int)
    (topK minSupport : Nat) : CoocTable × List Recommendation :=
  if (cooc.find? (fun p => p.1 = menuItemId)).isNone then (cooc, [])
  else
    let acc := dictGetDefault cooc menuItemId
    let relatedItems := acc.2.filter fun p => minSupport ≤ p.2
    let sortedItems := sortDesc (fun p => p.2) relatedItems
    let recs := (sortedItems.take topK).map fun p =>
      { menuItemId := p.1
        cooccurrenceCount := p.2
        popularityScore := getPop pop p.1
        recommendationScore := pyRound3 ((p.2 : ℚ) + getPop pop p.1 * 100) }
    (acc.1, recs)

/-- The method `recommend_related_items(menu_item_id, top_k, min_support)`. -/
def recommend_related_items (m : Model) (menuItemId : Int) (topK minSupport : Nat) :
    Model × Except PyError (List Recommendation) :=
  if m.isFitted = false then (m, .error .modelNotFitted)
  else
    let res := relatedCore m.itemCooccurrence m.itemPopularity menuItemId topK minSupport
    ({ m with itemCooccurrence := res.1 }, .ok res.2)

/-- One entry of the list `get_frequent_bundles` returns. -/
structure Bundle where
  items : List Int
  support : ℚ
  count : Nat
deriving DecidableEq, Repr

/-- The `item_support` dict comprehension: all pairs `(i1, i2)` with
`i1 < i2` drawn from the nested table, with their counts, in iteration
order.  (Outer and inner keys are unique, so the comprehension never
overwrites an entry and its order is this flattening order.) -/
def itemSupportOf (cooc : CoocTable) : List ((Int × Int) × Nat) :=
  cooc.flatMap fun p => p.2.filterMap fun q =>
    if p.1 < q.1 then some ((p.1, q.1), q.2) else none

/-- The total `total_cooccurrences = sum(item_support.values())`. -/
def totalCoocOf (cooc : CoocTable) : Nat :=
  ((itemSupportOf cooc).map (fun e => e.2)).sum

/-- The method `get_frequent_bundles(min_support, max_bundle_size)`.  `max_bundle_size`
is accepted and ignored, as in the source (pairs only).  The
`support / total_cooccurrences` division inside the loop raises
`ZeroDivisionError` when `total_cooccurrences = 0` and the filtered list is
non-empty; that state is unreachable through `train` (every stored count is
positive) but the embedding keeps the branch faithful. -/
def get_frequent_bundles (m : Model) (minSupport : ℚ) (maxBundleSize : Nat) :
    Model × Except PyError (List Bundle) :=
  if m.isFitted = false then (m, .error .modelNotFitted)
  else
    let itemSupport := itemSupportOf m.itemCooccurrence
    let total := totalCoocOf m.itemCooccurrence
    let filtered := itemSupport.filter fun e => minSupport * (total : ℚ) ≤ (e.2 : ℚ)
    let sortedBundles := sortDesc (fun e => e.2) filtered
    if total = 0 ∧ sortedBundles ≠ [] then (m, .error .zeroDivision)
    else
      let bundles := sortedBundles.map fun e =>
        { items := [e.1.1, e.1.2]
          support := pyRound4 ((e.2 : ℚ) / (total : ℚ))
          count := e.2 }
      (m, .ok (bundles.take 20))

/-- One entry of the list `get_cross_sell_opportunities` returns:
the related-items record plus the two extra keys `**rec` is merged with. -/
structure CrossSellRec where
  menuItemId : Int
  cooccurrenceCount : Nat
  popularityScore : ℚ
  recommendationScore : ℚ
  crossSellPotential : ℚ
  recommendationType : String
deriving DecidableEq, Repr

/-- The method `get_cross_sell_opportunities(menu_item_id, top_k)`: takes the first
`top_k` of `recommend_related_items(menu_item_id, top_k*2, min_support=3)`
in that order, re-scores each with
`count * 0.6 + popularity * 1000 * 0.4`, and tags positions 0 and 1 as
"upsell", the rest as "add-on".  The inner call through the public method
cannot raise here because `is_fitted` was already checked, so its fitted
path (`relatedCore`) is inlined. -/
def get_cross_sell_opportunities (m : Model) (menuItemId : Int) (topK : Nat) :
    Model × Except PyError (List CrossSellRec) :=
  if m.isFitted = false then (m, .error .modelNotFitted)
  else
    let res := relatedCore m.itemCooccurrence m.itemPopularity menuItemId (topK * 2) 3
    let opportunities := (res.2.take topK).enum.map fun pr =>
      { menuItemId := pr.2.menuItemId
        cooccurrenceCount := pr.2.cooccurrenceCount
        popularityScore := pr.2.popularityScore
        recommendationScore := pr.2.recommendationScore
        crossSellPotential := pyRound3 ((pr.2.cooccurrenceCount : ℚ) * (6 / 10) +
          pr.2.popularityScore * 1000 * (4 / 10))
        recommendationType := if pr.1 < 2 then "upsell" else "add-on" }
    ({ m with itemCooccurrence := res.1 }, .ok opportunities)

/-- One entry of the list `recommend_items_for_order` returns. -/
structure OrderRec where
  menuItemId : Int
  score : ℚ
  reason : String
deriving DecidableEq, Repr

/-- The increment `recommendation_scores[k] += v` on the `defaultdict(float)`. -/
def bumpScore : List (Int × ℚ) → Int → ℚ → List (Int × ℚ)
  | [], k, v => [(k, v)]
  | p :: rest, k, v => if p.1 = k then (p.1, p.2 + v) :: rest else p :: bumpScore rest k v

/-- One iteration of the `for item_id in current_order` loop of
`recommend_items_for_order`: fetch the item's related items (`top_k*2`,
`min_support=2`, through the fitted path of the public method, which cannot
raise here) and fold their composite scores into the accumulator, skipping
candidates already in the order.  The state is the pair
(co-occurrence table, recommendation_scores). -/
def orderStep (pop : List (Int × ℚ)) (currentOrder : List Int) (topK : Nat)
    (acc : CoocTable × List (Int × ℚ)) (itemId : Int) :
    CoocTable × List (Int × ℚ) :=
  let res := relatedCore acc.1 pop itemId (topK * 2) 2
  (res.1, res.2.foldl
    (fun sc rec =>
      if rec.menuItemId ∈ currentOrder then sc
      else bumpScore sc rec.menuItemId rec.recommendationScore)
    acc.2)

/-- The method `recommend_items_for_order(current_order, top_k)`.  Empty order: the
`top_k` most popular items, reason "popular", scores unrounded.  Otherwise:
the `orderStep` accumulation over the order, then the accumulated totals
sorted descending, truncated to `top_k` and rounded, reason
"frequently_bought_together". -/
def recommend_items_for_order (m : Model) (currentOrder : List Int) (topK : Nat) :
    Model × Except PyError (List OrderRec) :=
  if m.isFitted = false then (m, .error .modelNotFitted)
  else if currentOrder.isEmpty then
    (m, .ok (((sortDesc (fun p => p.2) m.itemPopularity).take topK).map fun p =>
      { menuItemId := p.1, score := p.2, reason := "popular" }))
  else
    let acc := currentOrder.foldl (orderStep m.itemPopularity currentOrder topK)
      (m.itemCooccurrence, ([] : List (Int × ℚ)))
    ({ m with itemCooccurrence := acc.1 },
     .ok (((sortDesc (fun p => p.2) acc.2).take topK).map fun p =>
       { menuItemId := p.1, score := pyRound3 p.2, reason := "frequently_bought_together" }))

/-- The dict `get_menu_insights` returns.  `np.std` is the square root of
the population variance; the square root of a rational is irrational in
general, so the embedding records the variance itself (`varPopularity`),
which carries the same information for our purposes.  `np.mean`/`np.median`
of an empty array are NaN in Python; that is unreachable through the public
interface once fitted on data containing items, and the embedding returns 0
there. -/
structure MenuInsights where
  totalUniqueItems : Nat
  topPopularItems : List (Int × ℚ)
  avgPopularity : ℚ
  medianPopularity : ℚ
  varPopularity : ℚ
deriving DecidableEq, Repr

/-- Ascending insertion for the median computation. -/
def insertAscQ (x : ℚ) : List ℚ → List ℚ
  | [] => [x]
  | y :: ys => if y ≤ x then y :: insertAscQ x ys else x :: y :: ys

/-- Ascending sort of rationals (what `np.median` does internally). -/
def sortAscQ (l : List ℚ) : List ℚ :=
  l.foldl (fun acc x => insertAscQ x acc) []

/-- Numpy's `np.median`: middle element of the sorted values, or the mean of the two
middle elements for even length. -/
def medianQ (l : List ℚ) : ℚ :=
  let s := sortAscQ l
  let n := s.length
  if n = 0 then 0
  else if n % 2 = 1 then s.getD (n / 2) 0
  else (s.getD (n / 2 - 1) 0 + s.getD (n / 2) 0) / 2

/-- The method `get_menu_insights()`. -/
def get_menu_insights (m : Model) : Model × Except PyError MenuInsights :=
  if m.isFitted = false then (m, .error .modelNotFitted)
  else
    let sortedItems := sortDesc (fun p => p.2) m.itemPopularity
    let scores := m.itemPopularity.map fun p => p.2
    let n := scores.length
    let mean := scores.sum / (n : ℚ)
    (m, .ok
      { totalUniqueItems := m.itemPopularity.length
        topPopularItems := sortedItems.take 10
        avgPopularity := mean
        medianPopularity := medianQ scores
        varPopularity := (scores.map fun q => (q - mean) ^ 2).sum / (n : ℚ) })

/-! ### Lemmas about the stable descending sort -/

theorem mem_insertDesc {α β : Type} [LinearOrder β] (key : α → β) (x : α)
    {l : List α} {y : α} : y ∈ insertDesc key x l ↔ y = x ∨ y ∈ l := by
  induction l with
  | nil => simp [insertDesc]
  | cons z zs ih =>
    rw [insertDesc]
    split
    · simp only [List.mem_cons, ih]
      tauto
    · simp only [List.mem_cons]

theorem length_insertDesc {α β : Type} [LinearOrder β] (key : α → β) (x : α)
    (l : List α) : (insertDesc key x l).length = l.length + 1 := by
  induction l with
  | nil => rfl
  | cons z zs ih =>
    rw [insertDesc]
    split
    · simp [ih]
    · simp

theorem pairwise_insertDesc {α β : Type} [LinearOrder β] (key : α → β) (x : α)
    {l : List α} (h : l.Pairwise (fun a b => key b ≤ key a)) :
    (insertDesc key x l).Pairwise (fun a b => key b ≤ key a) := by
  induction l with
  | nil => simp [insertDesc]
  | cons y ys ih =>
    rw [List.pairwise_cons] at h
    obtain ⟨hy, hys⟩ := h
    rw [insertDesc]
    split
    · rename_i hxy
      rw [List.pairwise_cons]
      refine ⟨fun z hz => ?_, ih hys⟩
      rcases (mem_insertDesc key x).mp hz with rfl | hz'
      · exact hxy
      · exact hy z hz'
    · rename_i hxy
      push_neg at hxy
      rw [List.pairwise_cons]
      refine ⟨fun z hz => ?_, List.pairwise_cons.mpr ⟨hy, hys⟩⟩
      rcases List.mem_cons.mp hz with rfl | hz'
      · exact le_of_lt hxy
      · exact le_trans (hy z hz') (le_of_lt hxy)

theorem pairwise_foldl_insertDesc {α β : Type} [LinearOrder β] (key : α → β)
    (l : List α) (acc : List α)
    (hacc : acc.Pairwise (fun a b => key b ≤ key a)) :
    (l.foldl (fun a x => insertDesc key x a) acc).Pairwise
      (fun a b => key b ≤ key a) := by
  induction l generalizing acc with
  | nil => exact hacc
  | cons x xs ih => exact ih _ (pairwise_insertDesc key x hacc)

theorem pairwise_sortDesc {α β : Type} [LinearOrder β] (key : α → β)
    (l : List α) : (sortDesc key l).Pairwise (fun a b => key b ≤ key a) :=
  pairwise_foldl_insertDesc key l [] List.Pairwise.nil

theorem mem_foldl_insertDesc {α β : Type} [LinearOrder β] (key : α → β)
    (l : List α) (acc : List α) {y : α} :
    y ∈ l.foldl (fun a x => insertDesc key x a) acc ↔ y ∈ acc ∨ y ∈ l := by
  induction l generalizing acc with
  | nil => simp
  | cons x xs ih =>
    rw [List.foldl_cons, ih, mem_insertDesc]
    simp only [List.mem_cons]
    tauto

theorem mem_sortDesc {α β : Type} [LinearOrder β] (key : α → β)
    (l : List α) {y : α} : y ∈ sortDesc key l ↔ y ∈ l := by
  rw [sortDesc, mem_foldl_insertDesc]
  simp

theorem length_foldl_insertDesc {α β : Type} [LinearOrder β] (key : α → β)
    (l : List α) (acc : List α) :
    (l.foldl (fun a x => insertDesc key x a) acc).length = acc.length + l.length := by
  induction l generalizing acc with
  | nil => rfl
  | cons x xs ih =>
    rw [List.foldl_cons, ih, length_insertDesc]
    simp [Nat.add_assoc, Nat.add_comm 1]

theorem length_sortDesc {α β : Type} [LinearOrder β] (key : α → β)
    (l : List α) : (sortDesc key l).length = l.length := by
  rw [sortDesc, length_foldl_insertDesc]
  simp

/-! ### Lemmas about the dictionary operations -/

theorem lookupNat_nil (i : Int) : lookupNat [] i = 0 := rfl

theorem lookupNat_cons (p : Int × Nat) (rest : NatTable) (i : Int) :
    lookupNat (p :: rest) i = if p.1 = i then p.2 else lookupNat rest i := rfl

theorem lookupInner_nil (i : Int) : lookupInner [] i = [] := rfl

theorem lookupInner_cons (p : Int × NatTable) (rest : CoocTable) (i : Int) :
    lookupInner (p :: rest) i = if p.1 = i then p.2 else lookupInner rest i := rfl

theorem lookupNat_bumpInner (l : NatTable) (k i : Int) :
    lookupNat (bumpInner l k) i = lookupNat l i + (if i = k then 1 else 0) := by
  induction l with
  | nil =>
    by_cases h : i = k
    · subst h
      simp [bumpInner, lookupNat_cons, lookupNat_nil]
    · have h' : ¬ k = i := fun hk => h hk.symm
      simp [bumpInner, lookupNat_cons, lookupNat_nil, h, h']
  | cons p rest ih =>
    by_cases hp : p.1 = k
    · rw [show bumpInner (p :: rest) k = (p.1, p.2 + 1) :: rest by
        simp [bumpInner, hp]]
      by_cases hi : p.1 = i
      · have hik : i = k := by rw [← hi, hp]
        simp [lookupNat_cons, hi, hik]
      · have hik : ¬ i = k := fun h => hi (by rw [hp, h])
        simp [lookupNat_cons, hi, hik]
    · rw [show bumpInner (p :: rest) k = p :: bumpInner rest k by
        simp [bumpInner, hp]]
      by_cases hi : p.1 = i
      · have hik : ¬ i = k := fun h => hp (by rw [hi, h])
        simp [lookupNat_cons, hi, hik]
      · simp [lookupNat_cons, hi, ih]

theorem lookupInner_bumpOuter_ne (c : CoocTable) (k1 k2 a : Int) (ha : a ≠ k1) :
    lookupInner (bumpOuter c k1 k2) a = lookupInner c a := by
  induction c with
  | nil =>
    have h' : ¬ k1 = a := fun h => ha h.symm
    simp [bumpOuter, lookupInner_cons, lookupInner_nil, h']
  | cons p rest ih =>
    by_cases hp : p.1 = k1
    · rw [show bumpOuter (p :: rest) k1 k2 = (p.1, bumpInner p.2 k2) :: rest by
        simp [bumpOuter, hp]]
      have h' : ¬ p.1 = a := fun h => ha (by rw [← h, hp])
      simp [lookupInner_cons, h']
    · rw [show bumpOuter (p :: rest) k1 k2 = p :: bumpOuter rest k1 k2 by
        simp [bumpOuter, hp]]
      by_cases hpa : p.1 = a
      · simp [lookupInner_cons, hpa]
      · simp [lookupInner_cons, hpa, ih]

theorem lookupInner_bumpOuter_eq (c : CoocTable) (k1 k2 : Int) :
    lookupInner (bumpOuter c k1 k2) k1 = bumpInner (lookupInner c k1) k2 := by
  induction c with
  | nil => simp [bumpOuter, lookupInner_cons, lookupInner_nil]
  | cons p rest ih =>
    by_cases hp : p.1 = k1
    · rw [show bumpOuter (p :: rest) k1 k2 = (p.1, bumpInner p.2 k2) :: rest by
        simp [bumpOuter, hp]]
      simp [lookupInner_cons, hp]
    · rw [show bumpOuter (p :: rest) k1 k2 = p :: bumpOuter rest k1 k2 by
        simp [bumpOuter, hp]]
      simp [lookupInner_cons, hp, ih]

theorem coocCount_bumpOuter (c : CoocTable) (k1 k2 a b : Int) :
    coocCount (bumpOuter c k1 k2) a b =
      coocCount c a b + (if a = k1 ∧ b = k2 then 1 else 0) := by
  unfold coocCount
  by_cases ha : a = k1
  · subst ha
    rw [lookupInner_bumpOuter_eq, lookupNat_bumpInner]
    by_cases hb : b = k2 <;> simp [hb]
  · rw [lookupInner_bumpOuter_ne c k1 k2 a ha]
    simp [ha]

/-- The net effect of one `combinations` pair on the table: both directions
gain one. -/
theorem coocCount_pairStep (c : CoocTable) (p : Int × Int) (a b : Int) :
    coocCount (bumpOuter (bumpOuter c p.1 p.2) p.2 p.1) a b =
      coocCount c a b + (if a = p.1 ∧ b = p.2 then 1 else 0) +
        (if a = p.2 ∧ b = p.1 then 1 else 0) := by
  rw [coocCount_bumpOuter, coocCount_bumpOuter]

/-- Symmetry of the table as a relation between lookups. -/
def SymmTable (c : CoocTable) : Prop :=
  ∀ a b : Int, coocCount c a b = coocCount c b a

theorem symmTable_foldl_pairs (ps : List (Int × Int)) (c : CoocTable)
    (hc : SymmTable c) :
    SymmTable (ps.foldl (fun c p => bumpOuter (bumpOuter c p.1 p.2) p.2 p.1) c) := by
  induction ps generalizing c with
  | nil => exact hc
  | cons p ps ih =>
    refine ih _ (fun a b => ?_)
    rw [coocCount_pairStep, coocCount_pairStep, hc a b]
    by_cases h1 : a = p.1 ∧ b = p.2 <;> by_cases h2 : a = p.2 ∧ b = p.1 <;>
      simp [h1, h2, and_comm, And.comm] <;> omega

theorem symmTable_coocPairs (c : CoocTable) (t : List Int) (hc : SymmTable c) :
    SymmTable (coocPairs c t) :=
  symmTable_foldl_pairs (combinations2 t) c hc

theorem symmTable_trainFold (ts : List (List Int)) (acc : NatTable × CoocTable)
    (hc : SymmTable acc.2) : SymmTable (ts.foldl trainStep acc).2 := by
  induction ts generalizing acc with
  | nil => exact hc
  | cons t ts ih => exact ih _ (symmTable_coocPairs acc.2 t hc)

/-! ### Unfolding lemmas for `train` -/

theorem train_fst (m : Model) (ts : List (List Int)) :
    (train m ts).1 =
      { itemCooccurrence := (ts.foldl trainStep ([], [])).2
        itemPopularity := (ts.foldl trainStep ([], [])).1.map fun p =>
          (p.1, (p.2 : ℚ) / (ts.length : ℚ))
        itemFeatures := m.itemFeatures
        isFitted := true } := by
  unfold train
  dsimp only
  split <;> rfl

theorem trainFold_fst (ts : List (List Int)) (acc : NatTable × CoocTable) :
    (ts.foldl trainStep acc).1 = ts.foldl countItems acc.1 := by
  induction ts generalizing acc with
  | nil => rfl
  | cons t ts ih => exact ih (trainStep acc t)

theorem trainFold_snd (ts : List (List Int)) (acc : NatTable × CoocTable) :
    (ts.foldl trainStep acc).2 = ts.foldl coocPairs acc.2 := by
  induction ts generalizing acc with
  | nil => rfl
  | cons t ts ih => exact ih (trainStep acc t)

/-! ### Occurrence counting (claim C3) -/

/-- Number of positions of `t` holding item `i`. -/
def occCount : List Int → Int → Nat
  | [], _ => 0
  | x :: xs, i => (if x = i then 1 else 0) + occCount xs i

theorem lookupNat_countItems (t : List Int) (acc : NatTable) (i : Int) :
    lookupNat (countItems acc t) i = lookupNat acc i + occCount t i := by
  induction t generalizing acc with
  | nil => simp [countItems, occCount]
  | cons x xs ih =>
    rw [countItems, List.foldl_cons, show List.foldl bumpInner (bumpInner acc x) xs =
      countItems (bumpInner acc x) xs from rfl, ih, lookupNat_bumpInner, occCount]
    by_cases h : i = x
    · simp [h, Nat.add_comm, Nat.add_assoc, Nat.add_left_comm]
    · have h' : ¬ x = i := fun hx => h hx.symm
      simp [h, h']

theorem mem_keys_bumpInner (l : NatTable) (k j : Int) :
    j ∈ (bumpInner l k).map Prod.fst ↔ j ∈ l.map Prod.fst ∨ j = k := by
  induction l with
  | nil => simp [bumpInner]
  | cons p rest ih =>
    by_cases hp : p.1 = k
    · rw [show bumpInner (p :: rest) k = (p.1, p.2 + 1) :: rest by
        simp [bumpInner, hp]]
      simp only [List.map_cons, List.mem_cons]
      constructor
      · rintro (h | h)
        · exact Or.inl (Or.inl h)
        · exact Or.inl (Or.inr h)
      · rintro ((h | h) | h)
        · exact Or.inl h
        · exact Or.inr h
        · exact Or.inl (h.trans hp.symm)
    · rw [show bumpInner (p :: rest) k = p :: bumpInner rest k by
        simp [bumpInner, hp]]
      simp only [List.map_cons, List.mem_cons, ih]
      tauto

theorem nodup_keys_bumpInner (l : NatTable) (k : Int)
    (h : (l.map Prod.fst).Nodup) : ((bumpInner l k).map Prod.fst).Nodup := by
  induction l with
  | nil => simp [bumpInner]
  | cons p rest ih =>
    simp only [List.map_cons, List.nodup_cons] at h
    by_cases hp : p.1 = k
    · rw [show bumpInner (p :: rest) k = (p.1, p.2 + 1) :: rest by
        simp [bumpInner, hp]]
      simp only [List.map_cons, List.nodup_cons]
      exact h
    · rw [show bumpInner (p :: rest) k = p :: bumpInner rest k by
        simp [bumpInner, hp]]
      simp only [List.map_cons, List.nodup_cons]
      refine ⟨fun hmem => ?_, ih h.2⟩
      rcases (mem_keys_bumpInner rest k p.1).mp hmem with hin | heq
      · exact h.1 hin
      · exact hp heq

theorem nodup_keys_countItems (t : List Int) (acc : NatTable)
    (h : (acc.map Prod.fst).Nodup) : ((countItems acc t).map Prod.fst).Nodup := by
  induction t generalizing acc with
  | nil => exact h
  | cons x xs ih => exact ih (bumpInner acc x) (nodup_keys_bumpInner acc x h)

theorem nodup_keys_countFold (ts : List (List Int)) (acc : NatTable)
    (h : (acc.map Prod.fst).Nodup) :
    ((ts.foldl countItems acc).map Prod.fst).Nodup := by
  induction ts generalizing acc with
  | nil => exact h
  | cons t ts ih => exact ih (countItems acc t) (nodup_keys_countItems t acc h)

theorem lookupNat_of_mem_nodup (l : NatTable) (i : Int) (c : Nat)
    (hmem : (i, c) ∈ l) (hnd : (l.map Prod.fst).Nodup) : lookupNat l i = c := by
  induction l with
  | nil => cases hmem
  | cons p rest ih =>
    simp only [List.map_cons, List.nodup_cons] at hnd
    rcases List.mem_cons.mp hmem with heq | hmem'
    · rw [← heq, lookupNat_cons]
      simp
    · rw [lookupNat_cons]
      have hne : ¬ p.1 = i := by
        intro hpi
        exact hnd.1 (hpi ▸ (List.mem_map.mpr ⟨(i, c), hmem', rfl⟩))
      simp [hne, ih hmem' hnd.2]

/-- The accumulated item count after all transactions is the total number
of occurrences across them. -/
theorem lookupNat_countFold (ts : List (List Int)) (acc : NatTable) (i : Int) :
    lookupNat (ts.foldl countItems acc) i =
      lookupNat acc i + (ts.map (fun t => occCount t i)).sum := by
  induction ts generalizing acc with
  | nil => simp
  | cons t ts ih =>
    rw [List.foldl_cons, ih, lookupNat_countItems]
    simp [Nat.add_assoc]

/-- For a duplicate-free transaction the occurrence count is the indicator
of membership. -/
theorem occCount_nodup (t : List Int) (i : Int) (h : t.Nodup) :
    occCount t i = if i ∈ t then 1 else 0 := by
  induction t with
  | nil => simp [occCount]
  | cons x xs ih =>
    simp only [List.nodup_cons] at h
    rw [occCount, ih h.2]
    by_cases hx : x = i
    · subst hx
      simp [h.1]
    · have hx' : ¬ i = x := fun hxi => hx hxi.symm
      by_cases hmem : i ∈ xs <;> simp [hx, hx', hmem]

/-! ### Positivity of stored co-occurrence counts (claim C6) -/

/-- Every value stored in an inner dict is at least 1. -/
def InnerPos (l : NatTable) : Prop := ∀ q ∈ l, 1 ≤ q.2

/-- Every value stored anywhere in the nested table is at least 1. -/
def CoocPos (c : CoocTable) : Prop := ∀ p ∈ c, InnerPos p.2

theorem innerPos_bumpInner (l : NatTable) (k : Int) (h : InnerPos l) :
    InnerPos (bumpInner l k) := by
  induction l with
  | nil =>
    intro q hq
    rcases List.mem_singleton.mp hq with rfl
    exact Nat.le_refl 1
  | cons p rest ih =>
    by_cases hp : p.1 = k
    · rw [show bumpInner (p :: rest) k = (p.1, p.2 + 1) :: rest by
        simp [bumpInner, hp]]
      intro q hq
      rcases List.mem_cons.mp hq with rfl | hq'
      · exact Nat.le_add_left 1 p.2
      · exact h q (List.mem_cons_of_mem p hq')
    · rw [show bumpInner (p :: rest) k = p :: bumpInner rest k by
        simp [bumpInner, hp]]
      intro q hq
      rcases List.mem_cons.mp hq with rfl | hq'
      · exact h q (List.mem_cons_self _ _)
      · exact ih (fun r hr => h r (List.mem_cons_of_mem _ hr)) q hq'

theorem coocPos_bumpOuter (c : CoocTable) (k1 k2 : Int) (h : CoocPos c) :
    CoocPos (bumpOuter c k1 k2) := by
  induction c with
  | nil =>
    intro p hp
    rcases List.mem_singleton.mp hp with rfl
    exact innerPos_bumpInner [] k2 (fun q hq => absurd hq (List.not_mem_nil q))
  | cons x rest ih =>
    by_cases hx : x.1 = k1
    · rw [show bumpOuter (x :: rest) k1 k2 = (x.1, bumpInner x.2 k2) :: rest by
        simp [bumpOuter, hx]]
      intro p hp
      rcases List.mem_cons.mp hp with rfl | hp'
      · exact innerPos_bumpInner x.2 k2 (h x (List.mem_cons_self x rest))
      · exact h p (List.mem_cons_of_mem x hp')
    · rw [show bumpOuter (x :: rest) k1 k2 = x :: bumpOuter rest k1 k2 by
        simp [bumpOuter, hx]]
      intro p hp
      rcases List.mem_cons.mp hp with rfl | hp'
      · exact h p (List.mem_cons_self p rest)
      · exact ih (fun r hr => h r (List.mem_cons_of_mem x hr)) p hp'

theorem coocPos_coocPairs (c : CoocTable) (t : List Int) (h : CoocPos c) :
    CoocPos (coocPairs c t) := by
  rw [coocPairs]
  generalize combinations2 t = ps
  induction ps generalizing c with
  | nil => exact h
  | cons p ps ih =>
    exact ih _ (coocPos_bumpOuter _ p.2 p.1 (coocPos_bumpOuter c p.1 p.2 h))

theorem coocPos_trainFold (ts : List (List Int)) (acc : NatTable × CoocTable)
    (h : CoocPos acc.2) : CoocPos (ts.foldl trainStep acc).2 := by
  induction ts generalizing acc with
  | nil => exact h
  | cons t ts ih => exact ih _ (coocPos_coocPairs acc.2 t h)

/-! ### Frame lemma for the related-items core (claim C7) -/

theorem relatedCore_fst (cooc : CoocTable) (pop : List (Int × ℚ)) (menuItemId : Int)
    (topK minSupport : Nat) :
    (relatedCore cooc pop menuItemId topK minSupport).1 = cooc := by
  unfold relatedCore dictGetDefault
  rcases hfind : cooc.find? (fun p => p.1 = menuItemId) with _ | p
  · simp [hfind]
  · simp [hfind]

/-! ### Rounding bounds -/

theorem rat_floor_le (q : ℚ) : (Rat.floor q : ℚ) ≤ q :=
  Rat.le_floor.mp (le_refl _)

theorem rat_lt_floor_add_one (q : ℚ) : q < (Rat.floor q : ℚ) + 1 := by
  by_contra hge
  push_neg at hge
  have h2 : ((Rat.floor q + 1 : ℤ) : ℚ) ≤ q := by push_cast; linarith
  have := Rat.le_floor.mpr h2
  omega

theorem roundHalfEven_le_int (q : ℚ) (n : ℤ) (h : q ≤ (n : ℚ)) :
    roundHalfEven q ≤ n := by
  unfold roundHalfEven
  dsimp only
  have hfl : (Rat.floor q : ℚ) ≤ q := rat_floor_le q
  have hfn : Rat.floor q ≤ n := by
    have hc : (Rat.floor q : ℚ) ≤ (n : ℚ) := le_trans hfl h
    exact_mod_cast hc
  have hsucc : (1 : ℚ) / 2 ≤ q - (Rat.floor q : ℚ) → Rat.floor q + 1 ≤ n := by
    intro hhalf
    have hflt : (Rat.floor q : ℚ) < q := by linarith
    have hlt : Rat.floor q < n := by
      have hc : (Rat.floor q : ℚ) < (n : ℚ) := lt_of_lt_of_le hflt h
      exact_mod_cast hc
    omega
  split
  · exact hfn
  · rename_i hge
    push_neg at hge
    split
    · rename_i hgt
      exact hsucc (le_of_lt hgt)
    · split
      · exact hfn
      · exact hsucc hge

theorem roundHalfEven_ge (q : ℚ) : q - 1 / 2 ≤ (roundHalfEven q : ℚ) := by
  unfold roundHalfEven
  dsimp only
  have hfl : q - 1 < (Rat.floor q : ℚ) := by
    have := rat_lt_floor_add_one q
    linarith
  split
  · rename_i hlt
    linarith
  · rename_i hge
    push_neg at hge
    split
    · push_cast
      linarith
    · rename_i hle
      push_neg at hle
      split
      · linarith
      · push_cast
        linarith

theorem pyRound4_le_one (q : ℚ) (h : q ≤ 1) : pyRound4 q ≤ 1 := by
  unfold pyRound4
  have hle : q * 10000 ≤ ((10000 : ℤ) : ℚ) := by push_cast; linarith
  have := roundHalfEven_le_int (q * 10000) 10000 hle
  have hcast : ((roundHalfEven (q * 10000) : ℤ) : ℚ) ≤ ((10000 : ℤ) : ℚ) := by
    exact_mod_cast this
  push_cast at hcast
  linarith

theorem pyRound4_ge (q : ℚ) : q - 1 / 20000 ≤ pyRound4 q := by
  unfold pyRound4
  have := roundHalfEven_ge (q * 10000)
  linarith

theorem orderStep_fst (pop : List (Int × ℚ)) (currentOrder : List Int)
    (topK : Nat) (acc : CoocTable × List (Int × ℚ)) (itemId : Int) :
    (orderStep pop currentOrder topK acc itemId).1 = acc.1 := by
  unfold orderStep
  dsimp only
  exact relatedCore_fst acc.1 pop itemId (topK * 2) 2

theorem orderFold_fst (pop : List (Int × ℚ)) (currentOrder l : List Int)
    (topK : Nat) (acc : CoocTable × List (Int × ℚ)) :
    (l.foldl (orderStep pop currentOrder topK) acc).1 = acc.1 := by
  induction l generalizing acc with
  | nil => rfl
  | cons x xs ih =>
    rw [List.foldl_cons, ih, orderStep_fst]

/-- The value a successful `find?` on the outer dict returns is the stored
inner dict. -/
theorem lookupInner_eq_of_find? (c : CoocTable) (k : Int) (p : Int × NatTable)
    (h : c.find? (fun q => q.1 = k) = some p) : lookupInner c k = p.2 := by
  induction c with
  | nil => simp at h
  | cons x rest ih =>
    by_cases hx : x.1 = k
    · rw [List.find?_cons_of_pos _ (by simp [hx])] at h
      rw [lookupInner_cons, if_pos hx]
      cases h
      rfl
    · rw [List.find?_cons_of_neg _ (by simp [hx])] at h
      rw [lookupInner_cons, if_neg hx]
      exact ih h

/-- An outer key `find?` fails to locate has the empty inner dict. -/
theorem lookupInner_eq_nil_of_find?_none (c : CoocTable) (k : Int)
    (h : c.find? (fun q => q.1 = k) = none) : lookupInner c k = [] := by
  induction c with
  | nil => rfl
  | cons x rest ih =>
    rw [List.find?_eq_none] at h
    have hx : ¬ x.1 = k := by
      have := h x (List.mem_cons_self _ _)
      simpa using this
    rw [lookupInner_cons, if_neg hx]
    exact ih (List.find?_eq_none.mpr fun a ha => h a (List.mem_cons_of_mem _ ha))

/-! ### Concrete transaction lists used as test vectors -/

/-- Five orders `[1, 2]`, four orders `[1, 3]`, ten singleton orders `[3]`:
item 2 co-occurs with item 1 more often than item 3 does, yet item 3 is far
more popular (14/19 versus 5/19). -/
def exTs1 : List (List Int) :=
  List.replicate 5 [1, 2] ++ List.replicate 4 [1, 3] ++ List.replicate 10 [3]

/-- One order `[1, 2]` and two orders `[3, 4]`. -/
def exTs2 : List (List Int) := [[1, 2], [3, 4], [3, 4]]

/-- The scenario transaction set of the specification. -/
def exTs3 : List (List Int) := [[1, 2, 3], [1, 2], [2, 3], [1, 3]]

/-! ### Claim theorems -/

/-- C2 (evidence of the code/spec divergence): `train` on the empty
transaction list raises `ZeroDivisionError` — so a division by zero on the
transaction total does occur — and it does so only after committing partial
state: the engine ends up with `is_fitted = True` and empty tables
published, not in its unfitted state. -/
theorem train_empty_raises_after_commit :
    train initialModel [] =
      ({ itemCooccurrence := [], itemPopularity := [], itemFeatures := none,
         isFitted := true }, .error .zeroDivision) ∧
    (train initialModel []).1 ≠ initialModel := by
  constructor
  · rfl
  · intro h
    have := congrArg Model.isFitted h
    simp [train_fst, initialModel] at this

/-- C4: for every prior state and every transaction list, the co-occurrence
table `train` builds is symmetric: the count stored for `(a, b)` equals the
count stored for `(b, a)`. -/
theorem cooccurrence_symmetric (m : Model) (ts : List (List Int)) (a b : Int) :
    coocCount (train m ts).1.itemCooccurrence a b =
      coocCount (train m ts).1.itemCooccurrence b a := by
  rw [train_fst]
  exact symmTable_trainFold ts ([], []) (fun _ _ => rfl) a b

/-- C8: `train` is idempotent — re-training on the same transaction list
from the state the first call produced yields exactly the same state (and
the same summary): the second call fully replaces the tables instead of
accumulating into them. -/
theorem train_idempotent (m : Model) (ts : List (List Int)) :
    train (train m ts).1 ts = train m ts := by
  rw [train_fst]
  rfl

/-- C5: every query operation — related items, frequent bundles, cross-sell,
order-completion recommendation, menu insights — invoked on an unfitted
engine surfaces the not-fitted error, for all argument values; none of them
silently returns an empty result. -/
theorem queries_before_build_raise (m : Model) (h : m.isFitted = false)
    (i : Int) (k s : Nat) (sf : ℚ) (mbs : Nat) (order : List Int) :
    (recommend_related_items m i k s).2 = .error .modelNotFitted ∧
    (get_frequent_bundles m sf mbs).2 = .error .modelNotFitted ∧
    (get_cross_sell_opportunities m i k).2 = .error .modelNotFitted ∧
    (recommend_items_for_order m order k).2 = .error .modelNotFitted ∧
    (get_menu_insights m).2 = .error .modelNotFitted := by
  unfold recommend_related_items get_frequent_bundles
    get_cross_sell_opportunities recommend_items_for_order get_menu_insights
  simp [h]

theorem queries_before_build_raise_witness :
    initialModel.isFitted = false ∧
    ((recommend_related_items initialModel 1 5 0).2 = .error .modelNotFitted ∧
     (get_frequent_bundles initialModel (1 / 100) 3).2 = .error .modelNotFitted ∧
     (get_cross_sell_opportunities initialModel 1 5).2 = .error .modelNotFitted ∧
     (recommend_items_for_order initialModel [1] 5).2 = .error .modelNotFitted ∧
     (get_menu_insights initialModel).2 = .error .modelNotFitted) :=
  ⟨rfl, queries_before_build_raise initialModel rfl 1 5 0 (1 / 100) 3 [1]⟩

/-- C7: every query operation is read-only: for every state (fitted or not)
and every argument value — including item identifiers absent from the
tables, where the `defaultdict` read could in principle auto-vivify a key —
the state after the call (co-occurrence table, popularity table, fitted
flag, all fields) is exactly the state before. -/
theorem queries_read_only (m : Model) (i : Int) (k s : Nat) (sf : ℚ)
    (mbs : Nat) (order : List Int) :
    (recommend_related_items m i k s).1 = m ∧
    (get_frequent_bundles m sf mbs).1 = m ∧
    (get_cross_sell_opportunities m i k).1 = m ∧
    (recommend_items_for_order m order k).1 = m ∧
    (get_menu_insights m).1 = m := by
  refine ⟨?_, ?_, ?_, ?_, ?_⟩
  · unfold recommend_related_items
    dsimp only
    split
    · rfl
    · rw [relatedCore_fst]
  · unfold get_frequent_bundles
    dsimp only
    split
    · rfl
    · split <;> rfl
  · unfold get_cross_sell_opportunities
    dsimp only
    split
    · rfl
    · rw [relatedCore_fst]
  · unfold recommend_items_for_order
    dsimp only
    split
    · rfl
    · split
      · rfl
      · rw [orderFold_fst]
  · unfold get_menu_insights
    dsimp only
    split <;> rfl

/-- The function `Rat.floor` coincides with the `FloorRing` floor, which `norm_num` can
evaluate. -/
theorem rat_floor_eq_intFloor (q : ℚ) : Rat.floor q = ⌊q⌋ := rfl

/-- The state `train` reaches from `exTs1`, written out. -/
def exModel1 : Model :=
  { itemCooccurrence := [(1, [(2, 5), (3, 4)]), (2, [(1, 5)]), (3, [(1, 4)])]
    itemPopularity := [(1, 9 / 19), (2, 5 / 19), (3, 14 / 19)]
    itemFeatures := none
    isFitted := true }

theorem train_exTs1 : (train initialModel exTs1).1 = exModel1 := by
  rw [train_fst, trainFold_fst, trainFold_snd]
  norm_num [exTs1, exModel1, List.replicate, countItems, coocPairs, combinations2,
    bumpOuter, bumpInner, initialModel]

theorem rhe_595000_19 : roundHalfEven (595000 / 19 : ℚ) = 31316 := by
  unfold roundHalfEven
  norm_num [rat_floor_eq_intFloor]

theorem rhe_1476000_19 : roundHalfEven (1476000 / 19 : ℚ) = 77684 := by
  unfold roundHalfEven
  norm_num [rat_floor_eq_intFloor]

/-- What `recommend_related_items(1, top_k=5, min_support=0)` yields on that
state: items 2 then 3, ordered by co-occurrence count 5 then 4, with
composite scores 31.316 then 77.684. -/
def exRelated1 : List Recommendation :=
  [{ menuItemId := 2, cooccurrenceCount := 5, popularityScore := 5 / 19,
     recommendationScore := 7829 / 250 },
   { menuItemId := 3, cooccurrenceCount := 4, popularityScore := 14 / 19,
     recommendationScore := 19421 / 250 }]

theorem related_exModel1 :
    (recommend_related_items exModel1 1 5 0).2 = .ok exRelated1 := by
  norm_num [recommend_related_items, relatedCore, exModel1, dictGetDefault,
    List.find?, sortDesc, insertDesc, getPop, pyRound3, exRelated1,
    rhe_595000_19, rhe_1476000_19]

/-- C1 (counterexample): on the engine trained from `exTs1`, the related
items of item 1 come out ordered `[item 2, item 3]` (by raw co-occurrence
count 5 then 4), but the composite score `count + popularity * 100` of the
first entry (5 + 500/19 ≈ 31.3) is strictly below that of the second
(4 + 1400/19 ≈ 77.7): the returned sequence is not sorted by non-increasing
composite score, and with `top_k = 1` the retained entry would not be the
top-1 by composite score. -/
theorem related_not_sorted_by_composite_cex :
    (recommend_related_items (train initialModel exTs1).1 1 5 0).2 =
      .ok exRelated1 ∧
    ¬ exRelated1.Pairwise
        (fun a b => (b.cooccurrenceCount : ℚ) + b.popularityScore * 100 ≤
          (a.cooccurrenceCount : ℚ) + a.popularityScore * 100) := by
  constructor
  · rw [train_exTs1]
    exact related_exModel1
  · intro hpw
    have h01 := (List.pairwise_cons.mp hpw).1 _ (List.mem_cons_self _ _)
    norm_num [exRelated1] at h01

/-- C1 (amended): the sequence `recommend_related_items` returns is sorted
by non-increasing raw co-occurrence count (not composite score), holds at
most `top_k` entries — the first `top_k` in that count order, so the
retained entries are a top-`top_k` set by count — each entry passes the
`min_support` filter, and each entry's composite score field equals its
count plus 100 times its popularity, rounded to 3 decimals, computed after
the truncation. -/
theorem related_sorted_by_count (m : Model) (i : Int) (k s : Nat)
    (recs : List Recommendation)
    (hrecs : (recommend_related_items m i k s).2 = .ok recs) :
    recs.length ≤ k ∧
    recs.Pairwise (fun a b => b.cooccurrenceCount ≤ a.cooccurrenceCount) ∧
    (∀ r ∈ recs, s ≤ r.cooccurrenceCount ∧
      r.popularityScore = getPop m.itemPopularity r.menuItemId ∧
      r.recommendationScore =
        pyRound3 ((r.cooccurrenceCount : ℚ) + r.popularityScore * 100)) ∧
    (∀ p ∈ lookupInner m.itemCooccurrence i, s ≤ p.2 →
      (∀ r ∈ recs, p.2 ≤ r.cooccurrenceCount) ∨
        (p.1, p.2) ∈ recs.map (fun r => (r.menuItemId, r.cooccurrenceCount))) := by
  unfold recommend_related_items at hrecs
  dsimp only at hrecs
  by_cases hf : m.isFitted = false
  · rw [if_pos hf] at hrecs
    simp at hrecs
  · rw [if_neg hf] at hrecs
    simp only [Except.ok.injEq] at hrecs
    subst hrecs
    unfold relatedCore
    dsimp only
    split
    · rename_i hnone
      refine ⟨by simp, by simp, by simp, ?_⟩
      rw [lookupInner_eq_nil_of_find?_none _ _ (Option.isNone_iff_eq_none.mp hnone)]
      simp
    · rename_i hnone
      obtain ⟨p, hp⟩ : ∃ p, m.itemCooccurrence.find? (fun q => q.1 = i) = some p := by
        rcases hfind : m.itemCooccurrence.find? (fun q => q.1 = i) with _ | p
        · rw [hfind] at hnone
          simp at hnone
        · exact ⟨p, hfind⟩
      unfold dictGetDefault
      rw [hp]
      dsimp only
      have hinner : lookupInner m.itemCooccurrence i = p.2 :=
        lookupInner_eq_of_find? _ _ _ hp
      refine ⟨?_, ?_, ?_, ?_⟩
      · rw [List.length_map, List.length_take]
        exact min_le_left _ _
      · rw [List.pairwise_map]
        exact ((pairwise_sortDesc _ _).sublist (List.take_sublist _ _))
      · intro r hr
        obtain ⟨q, hq, rfl⟩ := List.mem_map.mp hr
        have hq' : q ∈ p.2.filter fun e => decide (s ≤ e.2) :=
          (mem_sortDesc _ _).mp (List.take_subset _ _ hq)
        have hs : s ≤ q.2 := of_decide_eq_true (List.mem_filter.mp hq').2
        exact ⟨hs, rfl, rfl⟩
      · intro pr hpr hs
        rw [hinner] at hpr
        have hfil : pr ∈ p.2.filter fun e => decide (s ≤ e.2) :=
          List.mem_filter.mpr ⟨hpr, decide_eq_true hs⟩
        have hsorted : pr ∈ sortDesc (fun e => e.2) (p.2.filter fun e => decide (s ≤ e.2)) :=
          (mem_sortDesc _ _).mpr hfil
        set L := sortDesc (fun e => e.2) (p.2.filter fun e => decide (s ≤ e.2)) with hL
        have hsplit : L.take k ++ L.drop k = L := List.take_append_drop k L
        rw [← hsplit] at hsorted
        rcases List.mem_append.mp hsorted with htk | hdr
        · right
          rw [List.map_map]
          exact List.mem_map.mpr ⟨pr, htk, rfl⟩
        · left
          intro r hr
          obtain ⟨q, hq, rfl⟩ := List.mem_map.mp hr
          have hpw : (L.take k ++ L.drop k).Pairwise
              (fun a b => b.2 ≤ a.2) := by
            rw [hsplit]
            exact pairwise_sortDesc _ _
          exact (List.pairwise_append.mp hpw).2.2 q hq pr hdr

theorem related_sorted_by_count_witness :
    ((recommend_related_items (train initialModel exTs1).1 1 5 0).2 =
      .ok exRelated1) ∧
    (exRelated1.length ≤ 5 ∧
     exRelated1.Pairwise
       (fun a b => b.cooccurrenceCount ≤ a.cooccurrenceCount) ∧
     (∀ r ∈ exRelated1,
       0 ≤ r.cooccurrenceCount ∧
       r.popularityScore = getPop (train initialModel exTs1).1.itemPopularity r.menuItemId ∧
       r.recommendationScore =
         pyRound3 ((r.cooccurrenceCount : ℚ) + r.popularityScore * 100)) ∧
     (∀ p ∈ lookupInner (train initialModel exTs1).1.itemCooccurrence 1, 0 ≤ p.2 →
       (∀ r ∈ exRelated1, p.2 ≤ r.cooccurrenceCount) ∨
         (p.1, p.2) ∈ exRelated1.map
           (fun r => (r.menuItemId, r.cooccurrenceCount)))) :=
  ⟨by rw [train_exTs1]; exact related_exModel1,
   related_sorted_by_count (train initialModel exTs1).1 1 5 0 exRelated1
     (by rw [train_exTs1]; exact related_exModel1)⟩

/-- Across duplicate-free transactions, summed occurrence counts coincide
with the number of transactions containing the item. -/
theorem sum_occCount_nodup (ts : List (List Int)) (i : Int)
    (h : ∀ t ∈ ts, t.Nodup) :
    (ts.map (fun t => occCount t i)).sum =
      ts.countP (fun t => decide (i ∈ t)) := by
  induction ts with
  | nil => simp
  | cons t ts ih =>
    rw [List.map_cons, List.sum_cons, List.countP_cons,
      occCount_nodup t i (h t (List.mem_cons_self _ _)),
      ih (fun u hu => h u (List.mem_cons_of_mem _ hu))]
    by_cases hmem : i ∈ t <;> simp [hmem, Nat.add_comm]

/-- C3 (counterexample): an item occurring twice inside one transaction is
counted per occurrence, so training on the single transaction `[1, 1]`
stores popularity 2 for item 1 — outside `[0, 1]` and different from the
fraction of transactions containing the item (which is 1). -/
theorem popularity_out_of_range_cex :
    (train initialModel [[1, 1]]).1.itemPopularity = [(1, 2)] ∧
    ¬ ((2 : ℚ) ≤ 1) := by
  constructor
  · rw [train_fst, trainFold_fst]
    norm_num [countItems, bumpInner]
  · norm_num

/-- C3 (amended): every entry of the popularity table built from a
non-empty transaction list equals (total occurrences of the item across all
transactions, duplicates counted per position) / (number of transactions);
when no transaction contains a duplicate item this is the fraction of
transactions containing the item and lies in `[0, 1]`. -/
theorem popularity_values (m0 : Model) (ts : List (List Int)) (hne : ts ≠ [])
    (i : Int) (q : ℚ)
    (hmem : (i, q) ∈ (train m0 ts).1.itemPopularity) :
    q = ((ts.map (fun t => occCount t i)).sum : ℚ) / (ts.length : ℚ) ∧
    ((∀ t ∈ ts, t.Nodup) →
      q = (ts.countP (fun t => decide (i ∈ t)) : ℚ) / (ts.length : ℚ) ∧
      0 ≤ q ∧ q ≤ 1) := by
  rw [train_fst] at hmem
  dsimp only at hmem
  obtain ⟨p, hp, heq⟩ := List.mem_map.mp hmem
  obtain ⟨rfl, rfl⟩ : p.1 = i ∧ (p.2 : ℚ) / (ts.length : ℚ) = q := by
    have h1 := congrArg Prod.fst heq
    have h2 := congrArg Prod.snd heq
    exact ⟨h1, h2⟩
  rw [trainFold_fst] at hp
  have hnd : (((ts.foldl countItems []).map Prod.fst)).Nodup :=
    nodup_keys_countFold ts [] List.nodup_nil
  have hlk : lookupNat (ts.foldl countItems []) p.1 = p.2 :=
    lookupNat_of_mem_nodup _ _ _ (by simpa using hp) hnd
  have hsum : p.2 = (ts.map (fun t => occCount t p.1)).sum := by
    have hfold := lookupNat_countFold ts [] p.1
    rw [hlk] at hfold
    simpa [lookupNat_nil] using hfold
  have hlen : 0 < ts.length := List.length_pos.mpr hne
  refine ⟨by rw [hsum], fun hnodup => ?_⟩
  have hcnt : p.2 = ts.countP (fun t => decide (p.1 ∈ t)) := by
    rw [hsum, sum_occCount_nodup ts p.1 hnodup]
  refine ⟨by rw [hcnt], ?_, ?_⟩
  · positivity
  · rw [div_le_one (by exact_mod_cast hlen)]
    have : ts.countP (fun t => decide (p.1 ∈ t)) ≤ ts.length :=
      hcnt ▸ hcnt.symm ▸ List.countP_le_length _
    exact_mod_cast hcnt ▸ this

theorem popularity_values_witness :
    (exTs3 ≠ [] ∧ (1, 3 / 4) ∈ (train initialModel exTs3).1.itemPopularity) ∧
    (((3 : ℚ) / 4) = ((exTs3.map (fun t => occCount t 1)).sum : ℚ) / (exTs3.length : ℚ) ∧
     ((∀ t ∈ exTs3, t.Nodup) →
       ((3 : ℚ) / 4) = (exTs3.countP (fun t => decide ((1 : Int) ∈ t)) : ℚ) /
         (exTs3.length : ℚ) ∧
       0 ≤ ((3 : ℚ) / 4) ∧ ((3 : ℚ) / 4) ≤ 1)) := by
  have hmem : ((1 : Int), (3 : ℚ) / 4) ∈ (train initialModel exTs3).1.itemPopularity := by
    rw [train_fst, trainFold_fst]
    norm_num [exTs3, countItems, bumpInner]
  exact ⟨⟨by simp [exTs3], hmem⟩,
    popularity_values initialModel exTs3 (by simp [exTs3]) 1 (3 / 4) hmem⟩

/-- Every pair count listed by the bundle enumeration is positive when all
stored counts are. -/
theorem mem_itemSupport_pos (c : CoocTable) (hWF : CoocPos c)
    (e : (Int × Int) × Nat) (he : e ∈ itemSupportOf c) : 1 ≤ e.2 := by
  obtain ⟨p, hp, he'⟩ := List.mem_flatMap.mp he
  obtain ⟨q, hq, hfq⟩ := List.mem_filterMap.mp he'
  by_cases hlt : p.1 < q.1
  · rw [if_pos hlt] at hfq
    cases hfq
    exact hWF p hp q hq
  · rw [if_neg hlt] at hfq
    cases hfq

/-- Each enumerated pair count is bounded by the total. -/
theorem le_totalCooc_of_mem (c : CoocTable) (e : (Int × Int) × Nat)
    (he : e ∈ itemSupportOf c) : e.2 ≤ totalCoocOf c :=
  List.single_le_sum (by simp) e.2
    (List.mem_map.mpr ⟨e, he, rfl⟩)

/-- The table `train` builds stores only positive counts. -/
theorem coocPos_train (m : Model) (ts : List (List Int)) :
    CoocPos (train m ts).1.itemCooccurrence := by
  rw [train_fst]
  exact coocPos_trainFold ts ([], [])
    (fun p hp => absurd hp (List.not_mem_nil p))

/-- C6 (amended): on every engine built by `train`, `frequent_bundles`
returns at most 20 bundles, sorted by non-increasing count, and for every
returned bundle the exact support fraction count/total_cooccurrences lies in
`[min_support_fraction, 1]`; the reported support is that fraction rounded
to 4 decimal places, which is still at most 1 but may fall below
`min_support_fraction` by up to 1/20000 because of the rounding. -/
theorem frequent_bundles_props (m0 : Model) (ts : List (List Int)) (sf : ℚ)
    (mbs : Nat) (bs : List Bundle)
    (hbs : (get_frequent_bundles (train m0 ts).1 sf mbs).2 = .ok bs) :
    bs.length ≤ 20 ∧
    bs.Pairwise (fun a b => b.count ≤ a.count) ∧
    ∀ b ∈ bs,
      sf ≤ (b.count : ℚ) / (totalCoocOf (train m0 ts).1.itemCooccurrence : ℚ) ∧
      (b.count : ℚ) / (totalCoocOf (train m0 ts).1.itemCooccurrence : ℚ) ≤ 1 ∧
      b.support =
        pyRound4 ((b.count : ℚ) / (totalCoocOf (train m0 ts).1.itemCooccurrence : ℚ)) ∧
      sf - 1 / 20000 ≤ b.support ∧ b.support ≤ 1 := by
  have hWF : CoocPos (train m0 ts).1.itemCooccurrence := coocPos_train m0 ts
  set c := (train m0 ts).1.itemCooccurrence with hc
  have hf : (train m0 ts).1.isFitted = true := by rw [train_fst]
  unfold get_frequent_bundles at hbs
  rw [hf] at hbs
  dsimp only at hbs
  rw [if_neg (by simp)] at hbs
  by_cases hz : totalCoocOf c = 0 ∧
      sortDesc (fun e => e.2) (List.filter (fun e => decide (sf * (totalCoocOf c : ℚ) ≤ (e.2 : ℚ)))
        (itemSupportOf c)) ≠ []
  · rw [if_pos hz] at hbs
    simp at hbs
  · rw [if_neg hz] at hbs
    simp only [Except.ok.injEq] at hbs
    subst hbs
    set filtered := List.filter
      (fun e => decide (sf * (totalCoocOf c : ℚ) ≤ (e.2 : ℚ))) (itemSupportOf c)
      with hfiltered
    refine ⟨?_, ?_, ?_⟩
    · rw [List.length_take]
      exact min_le_left _ _
    · refine List.Pairwise.sublist (List.take_sublist _ _) ?_
      rw [List.pairwise_map]
      exact pairwise_sortDesc _ _
    · intro b hb
      have hb' := List.take_subset _ _ hb
      obtain ⟨e, he, rfl⟩ := List.mem_map.mp hb'
      have hefil : e ∈ filtered := (mem_sortDesc _ _).mp he
      obtain ⟨hesup, hecond⟩ := List.mem_filter.mp hefil
      have hcond : sf * (totalCoocOf c : ℚ) ≤ (e.2 : ℚ) := of_decide_eq_true hecond
      have hpos : 1 ≤ e.2 := mem_itemSupport_pos c hWF e hesup
      have htot : e.2 ≤ totalCoocOf c := le_totalCooc_of_mem c e hesup
      have htpos : (0 : ℚ) < (totalCoocOf c : ℚ) := by
        have h1 : 1 ≤ totalCoocOf c := le_trans hpos htot
        exact_mod_cast Nat.lt_of_lt_of_le Nat.zero_lt_one h1
      have hsupge : sf ≤ (e.2 : ℚ) / (totalCoocOf c : ℚ) :=
        (le_div_iff₀ htpos).mpr hcond
      have hsuple : (e.2 : ℚ) / (totalCoocOf c : ℚ) ≤ 1 :=
        (div_le_one htpos).mpr (by exact_mod_cast htot)
      dsimp only
      refine ⟨hsupge, hsuple, rfl, ?_, pyRound4_le_one _ hsuple⟩
      calc sf - 1 / 20000 ≤ (e.2 : ℚ) / (totalCoocOf c : ℚ) - 1 / 20000 := by linarith
        _ ≤ pyRound4 ((e.2 : ℚ) / (totalCoocOf c : ℚ)) := pyRound4_ge _

/-- The state `train` reaches from `exTs2`, written out. -/
def exModel2 : Model :=
  { itemCooccurrence := [(1, [(2, 1)]), (2, [(1, 1)]), (3, [(4, 2)]), (4, [(3, 2)])]
    itemPopularity := [(1, 1 / 3), (2, 1 / 3), (3, 2 / 3), (4, 2 / 3)]
    itemFeatures := none
    isFitted := true }

theorem train_exTs2 : (train initialModel exTs2).1 = exModel2 := by
  rw [train_fst, trainFold_fst, trainFold_snd]
  norm_num [exTs2, exModel2, countItems, coocPairs, combinations2,
    bumpOuter, bumpInner, initialModel]

theorem rhe_20000_3 : roundHalfEven (20000 / 3 : ℚ) = 6667 := by
  unfold roundHalfEven
  norm_num [rat_floor_eq_intFloor]

theorem rhe_10000_3 : roundHalfEven (10000 / 3 : ℚ) = 3333 := by
  unfold roundHalfEven
  norm_num [rat_floor_eq_intFloor]

/-- The bundle list `get_frequent_bundles` produces on `exModel2` whenever
both pairs pass the support filter: counts 2 then 1 out of a total of 3,
reported supports 0.6667 and 0.3333. -/
def exBundles2 : List Bundle :=
  [{ items := [3, 4], support := 6667 / 10000, count := 2 },
   { items := [1, 2], support := 3333 / 10000, count := 1 }]

theorem bundles_exModel2_cex :
    (get_frequent_bundles exModel2 (33333 / 100000) 3).2 = .ok exBundles2 := by
  norm_num [get_frequent_bundles, exModel2, itemSupportOf, totalCoocOf,
    List.filterMap_cons, sortDesc, insertDesc, pyRound4, exBundles2,
    rhe_20000_3, rhe_10000_3]

/-- C6 (counterexample): with `min_support_fraction = 0.33333` on the engine
trained from `exTs2`, the pair (1,2) passes the filter (its exact support is
1/3 ≥ 0.33333) but its reported support is `round(1/3, 4) = 0.3333`, which
is strictly below `min_support_fraction`: the returned support fractions do
not all lie in `[min_support_fraction, 1.0]`. -/
theorem bundles_support_below_min_cex :
    (get_frequent_bundles (train initialModel exTs2).1 (33333 / 100000) 3).2 =
      .ok exBundles2 ∧
    ¬ ((33333 : ℚ) / 100000 ≤ (3333 : ℚ) / 10000) := by
  constructor
  · rw [train_exTs2]
    exact bundles_exModel2_cex
  · norm_num

theorem bundles_exModel2_low :
    (get_frequent_bundles exModel2 (1 / 100) 3).2 = .ok exBundles2 := by
  norm_num [get_frequent_bundles, exModel2, itemSupportOf, totalCoocOf,
    List.filterMap_cons, sortDesc, insertDesc, pyRound4, exBundles2,
    rhe_20000_3, rhe_10000_3]

theorem frequent_bundles_props_witness :
    ((get_frequent_bundles (train initialModel exTs2).1 (1 / 100) 3).2 =
      .ok exBundles2) ∧
    (exBundles2.length ≤ 20 ∧
     exBundles2.Pairwise (fun a b => b.count ≤ a.count) ∧
     ∀ b ∈ exBundles2,
       (1 : ℚ) / 100 ≤ (b.count : ℚ) /
         (totalCoocOf (train initialModel exTs2).1.itemCooccurrence : ℚ) ∧
       (b.count : ℚ) /
         (totalCoocOf (train initialModel exTs2).1.itemCooccurrence : ℚ) ≤ 1 ∧
       b.support = pyRound4 ((b.count : ℚ) /
         (totalCoocOf (train initialModel exTs2).1.itemCooccurrence : ℚ)) ∧
       (1 : ℚ) / 100 - 1 / 20000 ≤ b.support ∧ b.support ≤ 1) :=
  ⟨by rw [train_exTs2]; exact bundles_exModel2_low,
   frequent_bundles_props initialModel exTs2 (1 / 100) 3 exBundles2
     (by rw [train_exTs2]; exact bundles_exModel2_low)⟩

/-- C9: on a fitted engine, `recommend_items_for_order` with an empty
current order returns at most `top_k` entries, sorted by non-increasing
popularity score, every entry tagged "popular" and drawn from the
popularity table, and they are a top-`top_k` selection: any popularity
entry not among them scores no higher than every returned entry. -/
theorem order_empty_returns_popular (m : Model) (k : Nat)
    (recs : List OrderRec) (hf : m.isFitted = true)
    (hrecs : (recommend_items_for_order m [] k).2 = .ok recs) :
    recs.length ≤ k ∧
    recs.Pairwise (fun a b => b.score ≤ a.score) ∧
    (∀ r ∈ recs, r.reason = "popular" ∧
      (r.menuItemId, r.score) ∈ m.itemPopularity) ∧
    (∀ p ∈ m.itemPopularity,
      (∀ r ∈ recs, p.2 ≤ r.score) ∨
        (p.1, p.2) ∈ recs.map (fun r => (r.menuItemId, r.score))) := by
  unfold recommend_items_for_order at hrecs
  rw [hf] at hrecs
  dsimp only at hrecs
  rw [if_neg (by simp), if_pos (by simp)] at hrecs
  simp only [Except.ok.injEq] at hrecs
  subst hrecs
  refine ⟨?_, ?_, ?_, ?_⟩
  · rw [List.length_map, List.length_take]
    exact min_le_left _ _
  · rw [List.pairwise_map]
    exact ((pairwise_sortDesc _ _).sublist (List.take_sublist _ _))
  · intro r hr
    obtain ⟨q, hq, rfl⟩ := List.mem_map.mp hr
    refine ⟨rfl, ?_⟩
    have hq' : q ∈ m.itemPopularity :=
      (mem_sortDesc _ _).mp (List.take_subset _ _ hq)
    simpa using hq'
  · intro pr hpr
    have hsorted : pr ∈ sortDesc (fun p => p.2) m.itemPopularity :=
      (mem_sortDesc _ _).mpr hpr
    set L := sortDesc (fun p => p.2) m.itemPopularity with hL
    have hsplit : L.take k ++ L.drop k = L := List.take_append_drop k L
    rw [← hsplit] at hsorted
    rcases List.mem_append.mp hsorted with htk | hdr
    · right
      rw [List.map_map]
      exact List.mem_map.mpr ⟨pr, htk, rfl⟩
    · left
      intro r hr
      obtain ⟨q, hq, rfl⟩ := List.mem_map.mp hr
      have hpw : (L.take k ++ L.drop k).Pairwise (fun a b => b.2 ≤ a.2) := by
        rw [hsplit]
        exact pairwise_sortDesc _ _
      exact (List.pairwise_append.mp hpw).2.2 q hq pr hdr

/-- The state `train` reaches from the specification's scenario
transactions `exTs3`, written out. -/
def exModel3 : Model :=
  { itemCooccurrence :=
      [(1, [(2, 2), (3, 2)]), (2, [(1, 2), (3, 2)]), (3, [(1, 2), (2, 2)])]
    itemPopularity := [(1, 3 / 4), (2, 3 / 4), (3, 3 / 4)]
    itemFeatures := none
    isFitted := true }

theorem train_exTs3 : (train initialModel exTs3).1 = exModel3 := by
  rw [train_fst, trainFold_fst, trainFold_snd]
  norm_num [exTs3, exModel3, countItems, coocPairs, combinations2,
    bumpOuter, bumpInner, initialModel]

/-- The answer of the empty-order query on that state: the first two items
of the (all tied at 3/4) popularity table, tagged "popular". -/
def exOrderRecs3 : List OrderRec :=
  [{ menuItemId := 1, score := 3 / 4, reason := "popular" },
   { menuItemId := 2, score := 3 / 4, reason := "popular" }]

theorem order_exModel3 :
    (recommend_items_for_order exModel3 [] 2).2 = .ok exOrderRecs3 := by
  norm_num [recommend_items_for_order, exModel3, sortDesc, insertDesc,
    exOrderRecs3]

theorem order_empty_returns_popular_witness :
    (exModel3.isFitted = true ∧
     (recommend_items_for_order (train initialModel exTs3).1 [] 2).2 =
       .ok exOrderRecs3) ∧
    (exOrderRecs3.length ≤ 2 ∧
     exOrderRecs3.Pairwise (fun a b => b.score ≤ a.score) ∧
     (∀ r ∈ exOrderRecs3, r.reason = "popular" ∧
       (r.menuItemId, r.score) ∈ (train initialModel exTs3).1.itemPopularity) ∧
     (∀ p ∈ (train initialModel exTs3).1.itemPopularity,
       (∀ r ∈ exOrderRecs3, p.2 ≤ r.score) ∨
         (p.1, p.2) ∈ exOrderRecs3.map (fun r => (r.menuItemId, r.score)))) :=
  ⟨⟨rfl, by rw [train_exTs3]; exact order_exModel3⟩,
   order_empty_returns_popular (train initialModel exTs3).1 2 exOrderRecs3
     (by rw [train_exTs3]; rfl) (by rw [train_exTs3]; exact order_exModel3)⟩

theorem enum_map_snd_comp {α β : Type} (l : List α) (f : α → β) :
    l.enum.map (fun p => f p.2) = l.map f := by
  have h := List.enum_map_snd l
  calc l.enum.map (fun p => f p.2) = (l.enum.map Prod.snd).map f := by
        rw [List.map_map]
        rfl
    _ = l.map f := by rw [h]

theorem rhe_2057000_19 : roundHalfEven (2057000 / 19 : ℚ) = 108263 := by
  unfold roundHalfEven
  norm_num [rat_floor_eq_intFloor]

theorem rhe_5645600_19 : roundHalfEven (5645600 / 19 : ℚ) = 297137 := by
  unfold roundHalfEven
  norm_num [rat_floor_eq_intFloor]

/-- The cross-sell list produced for item 1 on the engine trained from
`exTs1`: entries in the related-items order (count 5 then count 4), with
cross-sell potentials 108.263 then 297.137 — the later entry scores
strictly higher. -/
def exCross1 : List CrossSellRec :=
  [{ menuItemId := 2, cooccurrenceCount := 5, popularityScore := 5 / 19,
     recommendationScore := 7829 / 250, crossSellPotential := 108263 / 1000,
     recommendationType := "upsell" },
   { menuItemId := 3, cooccurrenceCount := 4, popularityScore := 14 / 19,
     recommendationScore := 19421 / 250, crossSellPotential := 297137 / 1000,
     recommendationType := "upsell" }]

theorem cross_exModel1 :
    (get_cross_sell_opportunities exModel1 1 5).2 = .ok exCross1 := by
  norm_num [get_cross_sell_opportunities, relatedCore, exModel1, dictGetDefault,
    List.find?, sortDesc, insertDesc, getPop, pyRound3, List.enum,
    List.enumFrom, exCross1, rhe_595000_19, rhe_1476000_19,
    rhe_2057000_19, rhe_5645600_19]

/-- C10: `get_cross_sell_opportunities` preserves the order of the
underlying related-items query — its output is the first `top_k` of the
`related(item, top_k*2, min_support=3)` candidates in that order — and is
not re-sorted by `cross_sell_potential`: on the engine trained from `exTs1`
the returned potentials are 108.263 then 297.137, so a later entry has a
strictly greater potential than an earlier one. -/
theorem cross_sell_preserves_related_order :
    (∀ (m : Model) (i : Int) (k : Nat),
      (get_cross_sell_opportunities m i k).2.map
          (fun l => l.map (fun o => o.menuItemId)) =
        (recommend_related_items m i (k * 2) 3).2.map
          (fun l => (l.take k).map (fun r => r.menuItemId))) ∧
    ((get_cross_sell_opportunities (train initialModel exTs1).1 1 5).2 =
       .ok exCross1 ∧
     exCross1.map (fun o => o.crossSellPotential) =
       [108263 / 1000, 297137 / 1000] ∧
     ((108263 : ℚ) / 1000 < 297137 / 1000)) := by
  refine ⟨?_, ?_, ?_, ?_⟩
  · intro m i k
    unfold get_cross_sell_opportunities recommend_related_items
    dsimp only
    split
    · rfl
    · dsimp only [Except.map]
      rw [List.map_map]
      have := enum_map_snd_comp
        ((relatedCore m.itemCooccurrence m.itemPopularity i (k * 2) 3).2.take k)
        (fun r => r.menuItemId)
      simpa using this
  · rw [train_exTs1]
    exact cross_exModel1
  · norm_num [exCross1]
  · norm_num

end MenuRec
